import Mathlib

/-!
Verification of the language-negotiation engine of `fluent-langneg-rs`
(`src/negotiate/mod.rs`).

The negotiation engine (`filter_matches`, `negotiate_languages`) is embedded
from the source.  The `Locale` tag matcher and the `likely_subtags` table are
modules of the repository that are not part of the sources under study; they
are modelled from the specification's description of the Tag Matcher and
Maximizer collaborators (§4.1–4.2 of the spec), refined where necessary so the
module's own documentation examples hold.

Fallible operations (`expect` on the available-locale map, `unwrap` on
`set_region`) are modelled with `Option`: a `none` result corresponds to a
panic of the original program.
-/

namespace FluentLocale

/-! ## The tag matcher, modelled from the spec -/

/-- Modelled from the spec: the structured form of a locale tag produced by
the Tag Matcher collaborator (§4.1): language, script, region and variant
subtags.  The `locale` module of the repository is not among the sources
under study. -/
structure Locale where
  language : Option String
  script : Option String
  region : Option String
  variants : List String
deriving DecidableEq, Repr

/-- Split a character list on the `'-'` separator. -/
def splitDash : List Char → List (List Char)
  | [] => [[]]
  | c :: cs =>
    if c = '-' then [] :: splitDash cs
    else
      match splitDash cs with
      | [] => [[c]]
      | g :: gs => (c :: g) :: gs

/-- The lowercased hyphen-separated subtags of a tag string. -/
def subtagsOf (s : String) : List String :=
  (splitDash s.data).map (fun l => ⟨l.map Char.toLower⟩)

/-- A structurally well-formed subtag: one to eight alphanumeric characters. -/
def validSubtag (t : String) : Bool :=
  !t.data.isEmpty && decide (t.data.length ≤ 8) && t.data.all Char.isAlphanum

/-- A structurally well-formed region subtag: two letters or three digits. -/
def validRegion (t : String) : Bool :=
  (decide (t.data.length = 2) && t.data.all Char.isAlpha)
    || (decide (t.data.length = 3) && t.data.all Char.isDigit)

/-- Modelled from the spec: fold one subtag into a partially parsed tag.
A four-letter subtag before any script/region/variant is the script, a
two-letter or three-digit subtag before any variant is the region, and
everything else is a variant subtag. -/
def addSubtag (l : Locale) (t : String) : Locale :=
  if l.script.isNone && l.region.isNone && l.variants.isEmpty
      && decide (t.data.length = 4) && t.data.all Char.isAlpha then
    { l with script := some t }
  else if l.region.isNone && l.variants.isEmpty && validRegion t then
    { l with region := some t }
  else
    { l with variants := l.variants ++ [t] }

/-- Modelled from the spec: `Locale::new` — structural decomposition of a tag
string into language, script, region and variant subtags; fails for
malformed tags (§4.1 `parse`).  Subtags are canonicalized to lower case. -/
def Locale.new (s : String) : Option Locale :=
  if s.data.isEmpty then none
  else
    match subtagsOf s with
    | [] => none
    | lang :: rest =>
      if (lang :: rest).all validSubtag then
        some (rest.foldl addSubtag ⟨some lang, none, none, []⟩)
      else none

/-- Modelled from the spec: `Locale::from` — infallible conversion used for
requested tags; a malformed requested tag degrades to a catch-all reference
with no fixed subtags (§4.3 step 1). -/
def Locale.fromString (s : String) : Locale :=
  (Locale.new s).getD ⟨none, none, none, []⟩

/-- Modelled from the spec: one subtag slot of the structural comparison.
A slot missing on a side that is treated as a range acts as a wildcard;
otherwise the two slots must be equal. -/
def optSubtagMatches (selfRange otherRange : Bool) (c r : Option String) : Bool :=
  (selfRange && c.isNone) || (otherRange && r.isNone) || c == r

/-- Modelled from the spec: the Tag Matcher comparison predicate (§4.1
`matches`), with the two Boolean flags interpreted so that the module's own
documentation examples hold: the first flag treats the candidate (available)
side as a range, the second flag treats the reference (requested) side as a
range; a subtag missing on a range side is a wildcard, and subtags present on
both sides must be equal. -/
def Locale.matches (c : Locale) (r : Locale) (selfRange otherRange : Bool) : Bool :=
  optSubtagMatches selfRange otherRange c.language r.language
    && optSubtagMatches selfRange otherRange c.script r.script
    && optSubtagMatches selfRange otherRange c.region r.region
    && ((selfRange && c.variants.isEmpty) || (otherRange && r.variants.isEmpty)
        || c.variants == r.variants)

/-- Modelled from the spec: `clear_variants` — a copy of the tag with all
variant subtags removed (§4.1). -/
def Locale.clear_variants (l : Locale) : Locale :=
  { l with variants := [] }

/-- Modelled from the spec: `set_region` — a copy with the region replaced;
the empty string is always valid and clears the region, and only structurally
invalid region codes are rejected (§4.1). -/
def Locale.set_region (l : Locale) (r : String) : Option Locale :=
  if r.data.isEmpty then some { l with region := none }
  else if validRegion r then some { l with region := some ⟨r.data.map Char.toLower⟩ }
  else none

/-- Join subtags back with hyphens. -/
def joinDash : List String → String
  | [] => ""
  | [t] => t
  | t :: ts => t ++ "-" ++ joinDash ts

/-- Modelled from the spec: `to_canonical_string` — serialize the parsed tag
back to a tag string, used as input to the Maximizer (§4.1). -/
def Locale.to_string (l : Locale) : String :=
  joinDash (l.language.toList ++ l.script.toList ++ l.region.toList ++ l.variants)

namespace likely_subtags

/-- Modelled from the spec: the static likely-subtags table of the Maximizer
(§4.2), restricted to the minimal tags appearing in the module's
documentation examples. -/
def table : List (String × String) :=
  [("en", "en-Latn-US"), ("fr", "fr-Latn-FR"), ("ja", "ja-Jpan-JP"),
   ("pl", "pl-Latn-PL"), ("de", "de-Latn-DE"), ("it", "it-Latn-IT")]

/-- Modelled from the spec: `maximize` — look up the most specific
`language-script-region` form of a minimal tag, or nothing (§4.2). -/
def add (s : String) : Option String :=
  table.lookup s

end likely_subtags

/-! ## The negotiation engine, embedded from `src/negotiate/mod.rs` -/

/-- The three negotiation strategies (`NegotiationStrategy`). -/
inductive NegotiationStrategy
  | Filtering
  | Matching
  | Lookup
deriving DecidableEq, Repr

/-- One tier's scan over the available pool: the `available.retain(...)`
closure of `filter_matches`.  Walks the pool in order; an entry is skipped
when the strategy is not `Filtering` and a match was already found; otherwise
its parsed form is looked up in the available-locale map (`none` models the
`expect` panic) and, on a structural match, the entry is appended to the
supported list, the found flag is set, and the entry is removed from the
pool. -/
def scanTier (strategy : NegotiationStrategy) (locMap : List (String × Locale))
    (reference : Locale) (selfRange otherRange : Bool) :
    List String → Bool → List String → Option (List String × Bool × List String)
  | [], found, supported => some ([], found, supported)
  | key :: rest, found, supported =>
    if strategy ≠ NegotiationStrategy.Filtering ∧ found = true then
      match scanTier strategy locMap reference selfRange otherRange rest found supported with
      | none => none
      | some (rest', found', supported') => some (key :: rest', found', supported')
    else
      match locMap.lookup key with
      | none => none
      | some loc =>
        if loc.matches reference selfRange otherRange then
          scanTier strategy locMap reference selfRange otherRange rest true (supported ++ [key])
        else
          match scanTier strategy locMap reference selfRange otherRange rest found supported with
          | none => none
          | some (rest', found', supported') => some (key :: rest', found', supported')

/-- The gate block repeated after every tier in `filter_matches`:
`if match_found { match *strategy { Filtering => {}, Matching => continue,
Lookup => break } }`.  The continuation `k` is the fall-through to the next
tier; `continue` yields the per-request result with the stop flag cleared and
`break` yields it with the stop flag set. -/
def gateThen (strategy : NegotiationStrategy) (found : Bool)
    (pool supported : List String)
    (k : Unit → Option (List String × List String × Bool)) :
    Option (List String × List String × Bool) :=
  if found then
    match strategy with
    | NegotiationStrategy.Filtering => k ()
    | NegotiationStrategy.Matching => some (pool, supported, false)
    | NegotiationStrategy.Lookup => some (pool, supported, true)
  else k ()

/-- Tier 3 of `filter_matches`: `if let Some(extended) =
likely_subtags::add(requested_locale.to_string())` — on a successful
maximization the requested locale is reassigned to the maximized form (which
the subsequent tiers then see) and the pool is scanned against it with a
fresh found flag; otherwise the tier is skipped and nothing changes. -/
def tier3Block (strategy : NegotiationStrategy) (locMap : List (String × Locale))
    (r0 : Locale) (pool sup : List String) :
    Option (Locale × List String × Bool × List String) :=
  match likely_subtags.add r0.to_string with
  | some extended =>
    let req3 := Locale.fromString extended
    match scanTier strategy locMap req3 true false pool false sup with
    | none => none
    | some (pool3, found3, sup3) => some (req3, pool3, found3, sup3)
  | none => some (r0, pool, false, sup)

/-- Tier 5 of `filter_matches`: the requested locale has already been
region-stripped; on a successful maximization of its serialized form, the
pool is scanned against the maximized locale (a shadowing local, so the
carried reference stays the region-stripped one); otherwise the tier is
skipped. -/
def tier5Block (strategy : NegotiationStrategy) (locMap : List (String × Locale))
    (r5 : Locale) (pool sup : List String) :
    Option (List String × Bool × List String) :=
  match likely_subtags.add r5.to_string with
  | some extended =>
    let req5m := Locale.fromString extended
    scanTier strategy locMap req5m true false pool false sup
  | none => some (pool, false, sup)

/-- The body of the `for req_loc_str in requested` loop of `filter_matches`
for one requested tag: the six ordered tiers with their gates, threading the
reference tag exactly as the source does (tier 3 reassigns it on a
successful maximization, tier 4 clears its variants, tier 5 strips its region
and shadows it with the maximized form for its own scan only, tier 6 strips
the region again).  Returns the new pool, the new supported list, and whether
the `Lookup` `break` fired. -/
def processRequest (strategy : NegotiationStrategy) (locMap : List (String × Locale))
    (reqStr : String) (pool0 supported0 : List String) :
    Option (List String × List String × Bool) :=
  let req0 := Locale.fromString reqStr
  match scanTier strategy locMap req0 false false pool0 false supported0 with
  | none => none
  | some (pool1, found1, sup1) =>
  gateThen strategy found1 pool1 sup1 fun _ =>
  match scanTier strategy locMap req0 true false pool1 found1 sup1 with
  | none => none
  | some (pool2, found2, sup2) =>
  gateThen strategy found2 pool2 sup2 fun _ =>
  match tier3Block strategy locMap req0 pool2 sup2 with
  | none => none
  | some (req3, pool3, found3, sup3) =>
  gateThen strategy found3 pool3 sup3 fun _ =>
  let req4 := req3.clear_variants
  match scanTier strategy locMap req4 true true pool3 false sup3 with
  | none => none
  | some (pool4, found4, sup4) =>
  gateThen strategy found4 pool4 sup4 fun _ =>
  match req4.set_region "" with
  | none => none
  | some req5 =>
  match tier5Block strategy locMap req5 pool4 sup4 with
  | none => none
  | some (pool5, found5, sup5) =>
  gateThen strategy found5 pool5 sup5 fun _ =>
  match req5.set_region "" with
  | none => none
  | some req6 =>
  match scanTier strategy locMap req6 true true pool5 false sup5 with
  | none => none
  | some (pool6, found6, sup6) =>
  gateThen strategy found6 pool6 sup6 fun _ =>
  some (pool6, sup6, false)

/-- The `for req_loc_str in requested` loop of `filter_matches`: empty
requested strings are skipped, each other requested tag is processed through
the six tiers, and a `Lookup` `break` returns the supported list accumulated
so far. -/
def filterLoop (strategy : NegotiationStrategy) (locMap : List (String × Locale)) :
    List String → List String → List String → Option (List String)
  | [], _pool, supported => some supported
  | reqStr :: rest, pool, supported =>
    if reqStr.data.isEmpty then filterLoop strategy locMap rest pool supported
    else
      match processRequest strategy locMap reqStr pool supported with
      | none => none
      | some (pool', supported', stop) =>
        if stop then some supported'
        else filterLoop strategy locMap rest pool' supported'

/-- The `available.retain` preprocessing of `filter_matches`: parse every
available tag, silently dropping unparsable ones, keeping the original
string paired with its parsed form. -/
def parseAvailable : List String → List (String × Locale)
  | [] => []
  | tag :: rest =>
    match Locale.new tag with
    | some loc => (tag, loc) :: parseAvailable rest
    | none => parseAvailable rest

/-- `filter_matches` from `src/negotiate/mod.rs`: preprocess the available
list, then run the six-tier loop over the requested tags. -/
def filter_matches (requested available : List String)
    (strategy : NegotiationStrategy) : Option (List String) :=
  let locMap := parseAvailable available
  filterLoop strategy locMap requested (locMap.map Prod.fst) []

/-- `negotiate_languages` from `src/negotiate/mod.rs`: run `filter_matches`
and then apply the default-insertion policy. -/
def negotiate_languages (requested available : List String)
    (default : Option String) (strategy : NegotiationStrategy) :
    Option (List String) :=
  match filter_matches requested available strategy with
  | none => none
  | some supported =>
    match default with
    | some d =>
      if strategy = NegotiationStrategy.Lookup then
        if supported.isEmpty then some (supported ++ [d]) else some supported
      else if supported.contains d then some supported
      else some (supported ++ [d])
    | none => some supported

/-! ## Spec-side definitions used for refinement claims -/

/-- Modelled from the spec: the three possible outcomes of the strategy gate
evaluated after each tier's scan (§4.3 step 4). -/
inductive GateDecision
  | nextTier
  | nextRequest
  | returnAll
deriving DecidableEq, Repr

/-- Modelled from the spec: the uniform strategy-gating rule of §4.3 step 4 —
`Filtering` never stops early; `Matching` abandons the remaining tiers for
this requested tag as soon as a tier produced at least one match; `Lookup`
abandons the remaining tiers and all remaining requested tags as soon as a
tier produced at least one match. -/
def specGate : NegotiationStrategy → Bool → GateDecision
  | NegotiationStrategy.Filtering, _ => GateDecision.nextTier
  | NegotiationStrategy.Matching, found =>
    if found then GateDecision.nextRequest else GateDecision.nextTier
  | NegotiationStrategy.Lookup, found =>
    if found then GateDecision.returnAll else GateDecision.nextTier

/-- Dispatch on the spec's gate decision: fall through to the next tier,
advance to the next requested tag (stop flag clear), or return the supported
list accumulated so far (stop flag set). -/
def specGateThen (strategy : NegotiationStrategy) (found : Bool)
    (pool supported : List String)
    (k : Unit → Option (List String × List String × Bool)) :
    Option (List String × List String × Bool) :=
  match specGate strategy found with
  | GateDecision.nextTier => k ()
  | GateDecision.nextRequest => some (pool, supported, false)
  | GateDecision.returnAll => some (pool, supported, true)

/-- The per-request pass with every gate replaced by the spec's uniform
gating rule (`specGateThen`); everything else is as in `processRequest`. -/
def processRequestSpec (strategy : NegotiationStrategy) (locMap : List (String × Locale))
    (reqStr : String) (pool0 supported0 : List String) :
    Option (List String × List String × Bool) :=
  let req0 := Locale.fromString reqStr
  match scanTier strategy locMap req0 false false pool0 false supported0 with
  | none => none
  | some (pool1, found1, sup1) =>
  specGateThen strategy found1 pool1 sup1 fun _ =>
  match scanTier strategy locMap req0 true false pool1 found1 sup1 with
  | none => none
  | some (pool2, found2, sup2) =>
  specGateThen strategy found2 pool2 sup2 fun _ =>
  match tier3Block strategy locMap req0 pool2 sup2 with
  | none => none
  | some (req3, pool3, found3, sup3) =>
  specGateThen strategy found3 pool3 sup3 fun _ =>
  let req4 := req3.clear_variants
  match scanTier strategy locMap req4 true true pool3 false sup3 with
  | none => none
  | some (pool4, found4, sup4) =>
  specGateThen strategy found4 pool4 sup4 fun _ =>
  match req4.set_region "" with
  | none => none
  | some req5 =>
  match tier5Block strategy locMap req5 pool4 sup4 with
  | none => none
  | some (pool5, found5, sup5) =>
  specGateThen strategy found5 pool5 sup5 fun _ =>
  match req5.set_region "" with
  | none => none
  | some req6 =>
  match scanTier strategy locMap req6 true true pool5 false sup5 with
  | none => none
  | some (pool6, found6, sup6) =>
  specGateThen strategy found6 pool6 sup6 fun _ =>
  some (pool6, sup6, false)

/-- The request loop driven by the spec-gated per-request pass. -/
def filterLoopSpec (strategy : NegotiationStrategy) (locMap : List (String × Locale)) :
    List String → List String → List String → Option (List String)
  | [], _pool, supported => some supported
  | reqStr :: rest, pool, supported =>
    if reqStr.data.isEmpty then filterLoopSpec strategy locMap rest pool supported
    else
      match processRequestSpec strategy locMap reqStr pool supported with
      | none => none
      | some (pool', supported', stop) =>
        if stop then some supported'
        else filterLoopSpec strategy locMap rest pool' supported'

/-- `filter_matches` with the spec's uniform strategy gating. -/
def filter_matches_spec (requested available : List String)
    (strategy : NegotiationStrategy) : Option (List String) :=
  let locMap := parseAvailable available
  filterLoopSpec strategy locMap requested (locMap.map Prod.fst) []

/-- Modelled from the spec: the reference tags of the six tiers, computed up
front from the requested tag alone, as described by the claim — tiers 1 and 2
use the parsed requested tag; the maximized tag of tier 3 (when the lookup
succeeds) becomes the reference for all subsequent tiers; tier 4 clears the
variants of that carried reference; tier 5 strips its region and matches
against the maximized form of the region-stripped tag; tier 6 uses the
region-stripped, non-maximized reference. -/
structure TierRefs where
  ref12 : Locale
  ref3max : Option Locale
  ref3 : Locale
  ref4 : Locale
  ref5stripped : Locale
  ref5max : Option Locale
  ref6 : Locale
deriving Repr

/-- Modelled from the spec: compute the six tiers' reference tags. -/
def tierRefs (reqStr : String) : TierRefs :=
  let ref12 := Locale.fromString reqStr
  let ref3max := (likely_subtags.add ref12.to_string).map Locale.fromString
  let ref3 := ref3max.getD ref12
  let ref4 := ref3.clear_variants
  let ref5stripped : Locale := { ref4 with region := none }
  let ref5max := (likely_subtags.add ref5stripped.to_string).map Locale.fromString
  { ref12 := ref12, ref3max := ref3max, ref3 := ref3, ref4 := ref4,
    ref5stripped := ref5stripped, ref5max := ref5max, ref6 := ref5stripped }

/-- The per-request pass written with the precomputed reference tags of
`tierRefs`: tier 3 scans against `ref3max` when present (otherwise it is
skipped), tier 4 against `ref4`, tier 5 against `ref5max` when present
(otherwise skipped), and tier 6 against `ref6` — the region-stripped,
non-maximized reference. -/
def processRequestRefs (strategy : NegotiationStrategy) (locMap : List (String × Locale))
    (reqStr : String) (pool0 supported0 : List String) :
    Option (List String × List String × Bool) :=
  let refs := tierRefs reqStr
  match scanTier strategy locMap refs.ref12 false false pool0 false supported0 with
  | none => none
  | some (pool1, found1, sup1) =>
  gateThen strategy found1 pool1 sup1 fun _ =>
  match scanTier strategy locMap refs.ref12 true false pool1 found1 sup1 with
  | none => none
  | some (pool2, found2, sup2) =>
  gateThen strategy found2 pool2 sup2 fun _ =>
  let t3 :=
    match refs.ref3max with
    | some r3 =>
      match scanTier strategy locMap r3 true false pool2 false sup2 with
      | none => none
      | some (pool3, found3, sup3) => some (r3, pool3, found3, sup3)
    | none => some (refs.ref3, pool2, false, sup2)
  match t3 with
  | none => none
  | some (_carried3, pool3, found3, sup3) =>
  gateThen strategy found3 pool3 sup3 fun _ =>
  match scanTier strategy locMap refs.ref4 true true pool3 false sup3 with
  | none => none
  | some (pool4, found4, sup4) =>
  gateThen strategy found4 pool4 sup4 fun _ =>
  let t5 :=
    match refs.ref5max with
    | some r5 => scanTier strategy locMap r5 true false pool4 false sup4
    | none => some (pool4, false, sup4)
  match t5 with
  | none => none
  | some (pool5, found5, sup5) =>
  gateThen strategy found5 pool5 sup5 fun _ =>
  match scanTier strategy locMap refs.ref6 true true pool5 false sup5 with
  | none => none
  | some (pool6, found6, sup6) =>
  gateThen strategy found6 pool6 sup6 fun _ =>
  some (pool6, sup6, false)

/-! ## Basic lemmas -/

/-- `set_region` with the empty string always succeeds and clears the region. -/
theorem set_region_empty (l : Locale) :
    l.set_region "" = some { l with region := none } := rfl

/-- Scanning an empty pool is the identity. -/
theorem scanTier_nil (strategy : NegotiationStrategy) (locMap : List (String × Locale))
    (reference : Locale) (a b : Bool) (found : Bool) (supported : List String) :
    scanTier strategy locMap reference a b [] found supported
      = some ([], found, supported) := rfl

/-- Any key of the association list has a successful lookup. -/
theorem lookup_isSome_of_mem (locMap : List (String × Locale)) :
    ∀ k ∈ locMap.map Prod.fst, (List.lookup k locMap).isSome = true := by
  induction locMap with
  | nil => intro k hk; simp at hk
  | cons p t ih =>
    rcases p with ⟨a, v⟩
    intro k hk
    by_cases hka : k = a
    · subst hka
      simp [List.lookup]
    · have hkb : (k == a) = false := beq_eq_false_iff_ne.mpr hka
      have hk' : k ∈ t.map Prod.fst := by
        rcases List.mem_cons.mp hk with h0 | h0
        · exact absurd h0 hka
        · exact h0
      simpa [List.lookup, hkb] using ih k hk'

/-- Moving matched entries out of the pool composes across tiers. -/
theorem perm_step {pool p1 p2 δ1 δ2 : List String}
    (h1 : pool.Perm (p1 ++ δ1)) (h2 : p1.Perm (p2 ++ δ2)) :
    pool.Perm (p2 ++ (δ1 ++ δ2)) := by
  refine h1.trans ((h2.append_right δ1).trans ?_)
  rw [List.append_assoc]
  exact List.Perm.append_left p2 List.perm_append_comm

/-- Structural specification of one tier's scan: the scan succeeds whenever
every pool entry is in the map; the surviving pool is a sublist of the pool,
the supported list grows by exactly the entries removed from the pool, the
flag can only come out clear when it went in clear and nothing matched, and
for the non-`Filtering` strategies a scan entered with a clear flag removes
at most one entry. -/
theorem scanTier_sound (strategy : NegotiationStrategy) (locMap : List (String × Locale))
    (reference : Locale) (a b : Bool) :
    ∀ (pool : List String) (found : Bool) (supported : List String),
    (∀ k ∈ pool, (List.lookup k locMap).isSome = true) →
    ∃ p' f' δ,
      scanTier strategy locMap reference a b pool found supported
        = some (p', f', supported ++ δ) ∧
      p'.Sublist pool ∧
      pool.Perm (p' ++ δ) ∧
      (f' = false → δ = [] ∧ found = false) ∧
      (strategy ≠ NegotiationStrategy.Filtering → found = true →
        p' = pool ∧ f' = true ∧ δ = []) ∧
      (strategy ≠ NegotiationStrategy.Filtering → found = false → δ.length ≤ 1) := by
  intro pool
  induction pool with
  | nil =>
    intro found supported _
    exact ⟨[], found, [], by simp [scanTier], List.Sublist.refl _, by simp,
      fun hf => ⟨rfl, hf⟩, fun _ hfo => ⟨rfl, hfo, rfl⟩, fun _ _ => by simp⟩
  | cons key rest ih =>
    intro found supported h
    have hkey : (List.lookup key locMap).isSome = true := h key (by simp)
    have hrest : ∀ k ∈ rest, (List.lookup k locMap).isSome = true :=
      fun k hk => h k (by simp [hk])
    by_cases hguard : strategy ≠ NegotiationStrategy.Filtering ∧ found = true
    · obtain ⟨p', f', δ, heq, hsub, hperm, hf, hTrue, hLen⟩ := ih found supported hrest
      obtain ⟨hp', hf', hδ⟩ := hTrue hguard.1 hguard.2
      refine ⟨key :: rest, true, [], ?_, List.Sublist.refl _, by simp,
        by simp, fun _ _ => ⟨rfl, rfl, rfl⟩, fun _ hfo => by simp [hguard.2] at hfo⟩
      simp only [scanTier, if_pos hguard]
      rw [heq, hp', hf', hδ]
    · rcases hloc : List.lookup key locMap with _ | loc
      · rw [hloc] at hkey; simp at hkey
      · by_cases hm : loc.matches reference a b = true
        · obtain ⟨p', f', δ', heq, hsub, hperm, hf, hTrue, _⟩ :=
            ih true (supported ++ [key]) hrest
          refine ⟨p', f', key :: δ', ?_, hsub.cons key, ?_, ?_, ?_, ?_⟩
          · simp only [scanTier, if_neg hguard, hloc, hm, if_pos]
            rw [heq]
            simp [List.append_assoc]
          · exact (List.Perm.cons key hperm).trans List.perm_middle.symm
          · intro hf'
            rcases hf hf' with ⟨_, hcontra⟩
            simp at hcontra
          · intro hnF hfound
            exact absurd ⟨hnF, hfound⟩ hguard
          · intro hnF _
            obtain ⟨_, _, hδ'⟩ := hTrue hnF rfl
            simp [hδ']
        · obtain ⟨p', f', δ, heq, hsub, hperm, hf, hTrue, hLen⟩ := ih found supported hrest
          refine ⟨key :: p', f', δ, ?_, hsub.cons₂ key, List.Perm.cons key hperm,
            hf, ?_, hLen⟩
          · simp only [scanTier, if_neg hguard, hloc]
            simp only [hm]
            rw [heq]
            simp
          · intro hnF hfound
            exact absurd ⟨hnF, hfound⟩ hguard

/-- A gate whose flag is clear, or whose strategy is `Filtering`, falls
through to the next tier. -/
theorem gateThen_continue {strategy : NegotiationStrategy} {found : Bool}
    {p s : List String} {k : Unit → Option (List String × List String × Bool)}
    (h : ¬(found = true ∧ strategy ≠ NegotiationStrategy.Filtering)) :
    gateThen strategy found p s k = k () := by
  cases found
  · rfl
  · have hF : strategy = NegotiationStrategy.Filtering := by
      by_contra hn
      exact h ⟨rfl, hn⟩
    subst hF
    rfl

/-- Soundness of the tier-3 block, in the same shape as `scanTier_sound`. -/
theorem tier3Block_sound (strategy : NegotiationStrategy) (locMap : List (String × Locale))
    (r0 : Locale) (pool sup : List String)
    (hmap : ∀ k ∈ pool, (List.lookup k locMap).isSome = true) :
    ∃ r3 p3 f3 δ3,
      tier3Block strategy locMap r0 pool sup = some (r3, p3, f3, sup ++ δ3) ∧
      p3.Sublist pool ∧ pool.Perm (p3 ++ δ3) ∧
      (f3 = false → δ3 = []) ∧
      (strategy ≠ NegotiationStrategy.Filtering → δ3.length ≤ 1) := by
  rcases h3 : likely_subtags.add r0.to_string with _ | ext
  · exact ⟨r0, pool, false, [], by simp [tier3Block, h3], List.Sublist.refl _,
      by simp, fun _ => rfl, fun _ => by simp⟩
  · obtain ⟨p3, f3, δ3, heq, hsub, hperm, hf, _, hlen⟩ :=
      scanTier_sound strategy locMap (Locale.fromString ext) true false pool false sup hmap
    exact ⟨Locale.fromString ext, p3, f3, δ3, by simp [tier3Block, h3, heq], hsub, hperm,
      fun h => (hf h).1, fun hnF => hlen hnF rfl⟩

/-- Soundness of the tier-5 block, in the same shape as `scanTier_sound`. -/
theorem tier5Block_sound (strategy : NegotiationStrategy) (locMap : List (String × Locale))
    (r5 : Locale) (pool sup : List String)
    (hmap : ∀ k ∈ pool, (List.lookup k locMap).isSome = true) :
    ∃ p5 f5 δ5,
      tier5Block strategy locMap r5 pool sup = some (p5, f5, sup ++ δ5) ∧
      p5.Sublist pool ∧ pool.Perm (p5 ++ δ5) ∧
      (f5 = false → δ5 = []) ∧
      (strategy ≠ NegotiationStrategy.Filtering → δ5.length ≤ 1) := by
  rcases h5 : likely_subtags.add r5.to_string with _ | ext
  · exact ⟨pool, false, [], by simp [tier5Block, h5], List.Sublist.refl _,
      by simp, fun _ => rfl, fun _ => by simp⟩
  · obtain ⟨p5, f5, δ5, heq, hsub, hperm, hf, _, hlen⟩ :=
      scanTier_sound strategy locMap (Locale.fromString ext) true false pool false sup hmap
    exact ⟨p5, f5, δ5, by simp [tier5Block, h5, heq], hsub, hperm,
      fun h => (hf h).1, fun hnF => hlen hnF rfl⟩

/-- From a gate that fell through and the scan's flag law, conclude that for
non-`Filtering` strategies the tier found nothing and removed nothing. -/
theorem continue_clear {P : Prop} {f : Bool} {δ : List String}
    (hx : ¬(f = true ∧ P)) (hf : f = false → δ = []) (hP : P) :
    f = false ∧ δ = [] := by
  have hff : f = false := by
    cases hfe : f
    · rfl
    · exact absurd ⟨hfe, hP⟩ hx
  exact ⟨hff, hf hff⟩

/-- Master specification of one requested tag's six-tier pass: it succeeds
whenever every pool entry is in the map, the supported list grows by exactly
the entries removed from the pool, `Filtering` and `Matching` never set the
stop flag, and under `Matching` and `Lookup` at most one entry is consumed
(none at all when a `Lookup` pass does not stop). -/
theorem processRequest_sound (strategy : NegotiationStrategy)
    (locMap : List (String × Locale)) (reqStr : String) (pool sup : List String)
    (hmap : ∀ k ∈ pool, (List.lookup k locMap).isSome = true) :
    ∃ p' δ stop,
      processRequest strategy locMap reqStr pool sup = some (p', sup ++ δ, stop) ∧
      p'.Sublist pool ∧
      pool.Perm (p' ++ δ) ∧
      (strategy = NegotiationStrategy.Filtering → stop = false) ∧
      (strategy = NegotiationStrategy.Matching → stop = false ∧ δ.length ≤ 1) ∧
      (strategy = NegotiationStrategy.Lookup →
        δ.length ≤ 1 ∧ (stop = false → δ = [])) := by
  obtain ⟨p1, f1, δ1, h1, hsub1, hperm1, hf1, _, hlen1⟩ :=
    scanTier_sound strategy locMap (Locale.fromString reqStr) false false pool false sup hmap
  have hmap1 : ∀ k ∈ p1, (List.lookup k locMap).isSome = true :=
    fun k hk => hmap k (hsub1.subset hk)
  simp only [processRequest, h1]
  by_cases hx1 : f1 = true ∧ strategy ≠ NegotiationStrategy.Filtering
  · obtain ⟨hf1t, hnF⟩ := hx1
    subst hf1t
    have hδ1 : δ1.length ≤ 1 := hlen1 hnF rfl
    cases strategy with
    | Filtering => exact absurd rfl hnF
    | Matching =>
      exact ⟨p1, δ1, false, rfl, hsub1, hperm1, fun h => absurd h (by decide),
        fun _ => ⟨rfl, hδ1⟩, fun h => absurd h (by decide)⟩
    | Lookup =>
      exact ⟨p1, δ1, true, rfl, hsub1, hperm1, fun h => absurd h (by decide),
        fun h => absurd h (by decide), fun _ => ⟨hδ1, fun hst => by simp at hst⟩⟩
  · simp only [gateThen_continue hx1]
    have hq1 : strategy ≠ NegotiationStrategy.Filtering → f1 = false ∧ δ1 = [] :=
      continue_clear hx1 (fun h => (hf1 h).1)
    obtain ⟨p2, f2, δ2, h2, hsub2, hperm2, hf2, _, hlen2⟩ :=
      scanTier_sound strategy locMap (Locale.fromString reqStr) true false p1 f1
        (sup ++ δ1) hmap1
    have hmap2 : ∀ k ∈ p2, (List.lookup k locMap).isSome = true :=
      fun k hk => hmap1 k (hsub2.subset hk)
    simp only [h2]
    by_cases hx2 : f2 = true ∧ strategy ≠ NegotiationStrategy.Filtering
    · obtain ⟨hf2t, hnF⟩ := hx2
      subst hf2t
      obtain ⟨hf1f, hδ1e⟩ := hq1 hnF
      have hδ2 : δ2.length ≤ 1 := hlen2 hnF hf1f
      cases strategy with
      | Filtering => exact absurd rfl hnF
      | Matching =>
        exact ⟨p2, δ1 ++ δ2, false, by simp [gateThen], hsub2.trans hsub1,
          perm_step hperm1 hperm2, fun h => absurd h (by decide),
          fun _ => ⟨rfl, by simp [hδ1e, hδ2]⟩, fun h => absurd h (by decide)⟩
      | Lookup =>
        exact ⟨p2, δ1 ++ δ2, true, by simp [gateThen], hsub2.trans hsub1,
          perm_step hperm1 hperm2, fun h => absurd h (by decide),
          fun h => absurd h (by decide),
          fun _ => ⟨by simp [hδ1e, hδ2], fun hst => by simp at hst⟩⟩
    · simp only [gateThen_continue hx2]
      have hq2 : strategy ≠ NegotiationStrategy.Filtering → f2 = false ∧ δ2 = [] :=
        continue_clear hx2 (fun h => (hf2 h).1)
      obtain ⟨r3, p3, f3, δ3, h3, hsub3, hperm3, hf3, hlen3⟩ :=
        tier3Block_sound strategy locMap (Locale.fromString reqStr) p2
          ((sup ++ δ1) ++ δ2) hmap2
      have hmap3 : ∀ k ∈ p3, (List.lookup k locMap).isSome = true :=
        fun k hk => hmap2 k (hsub3.subset hk)
      simp only [h3]
      by_cases hx3 : f3 = true ∧ strategy ≠ NegotiationStrategy.Filtering
      · obtain ⟨hf3t, hnF⟩ := hx3
        subst hf3t
        obtain ⟨hf1f, hδ1e⟩ := hq1 hnF
        obtain ⟨hf2f, hδ2e⟩ := hq2 hnF
        have hδ3 : δ3.length ≤ 1 := hlen3 hnF
        cases strategy with
        | Filtering => exact absurd rfl hnF
        | Matching =>
          exact ⟨p3, δ1 ++ (δ2 ++ δ3), false, by simp [gateThen], hsub3.trans (hsub2.trans hsub1),
            perm_step hperm1 (perm_step hperm2 hperm3), fun h => absurd h (by decide),
            fun _ => ⟨rfl, by simp [hδ1e, hδ2e, hδ3]⟩, fun h => absurd h (by decide)⟩
        | Lookup =>
          exact ⟨p3, δ1 ++ (δ2 ++ δ3), true, by simp [gateThen], hsub3.trans (hsub2.trans hsub1),
            perm_step hperm1 (perm_step hperm2 hperm3), fun h => absurd h (by decide),
            fun h => absurd h (by decide),
            fun _ => ⟨by simp [hδ1e, hδ2e, hδ3], fun hst => by simp at hst⟩⟩
      · simp only [gateThen_continue hx3]
        have hq3 : strategy ≠ NegotiationStrategy.Filtering → f3 = false ∧ δ3 = [] :=
          continue_clear hx3 hf3
        rcases r3 with ⟨lang3, scr3, reg3, var3⟩
        obtain ⟨p4, f4, δ4, h4, hsub4, hperm4, hf4, _, hlen4⟩ :=
          scanTier_sound strategy locMap ⟨lang3, scr3, reg3, []⟩ true true p3 false
            (((sup ++ δ1) ++ δ2) ++ δ3) hmap3
        have hmap4 : ∀ k ∈ p4, (List.lookup k locMap).isSome = true :=
          fun k hk => hmap3 k (hsub4.subset hk)
        simp only [Locale.clear_variants, h4]
        by_cases hx4 : f4 = true ∧ strategy ≠ NegotiationStrategy.Filtering
        · obtain ⟨hf4t, hnF⟩ := hx4
          subst hf4t
          obtain ⟨hf1f, hδ1e⟩ := hq1 hnF
          obtain ⟨hf2f, hδ2e⟩ := hq2 hnF
          obtain ⟨hf3f, hδ3e⟩ := hq3 hnF
          have hδ4 : δ4.length ≤ 1 := hlen4 hnF rfl
          cases strategy with
          | Filtering => exact absurd rfl hnF
          | Matching =>
            exact ⟨p4, δ1 ++ (δ2 ++ (δ3 ++ δ4)), false, by simp [gateThen],
              hsub4.trans (hsub3.trans (hsub2.trans hsub1)),
              perm_step hperm1 (perm_step hperm2 (perm_step hperm3 hperm4)),
              fun h => absurd h (by decide),
              fun _ => ⟨rfl, by simp [hδ1e, hδ2e, hδ3e, hδ4]⟩,
              fun h => absurd h (by decide)⟩
          | Lookup =>
            exact ⟨p4, δ1 ++ (δ2 ++ (δ3 ++ δ4)), true, by simp [gateThen],
              hsub4.trans (hsub3.trans (hsub2.trans hsub1)),
              perm_step hperm1 (perm_step hperm2 (perm_step hperm3 hperm4)),
              fun h => absurd h (by decide), fun h => absurd h (by decide),
              fun _ => ⟨by simp [hδ1e, hδ2e, hδ3e, hδ4], fun hst => by simp at hst⟩⟩
        · simp only [gateThen_continue hx4]
          have hq4 : strategy ≠ NegotiationStrategy.Filtering → f4 = false ∧ δ4 = [] :=
            continue_clear hx4 (fun h => (hf4 h).1)
          simp only [set_region_empty]
          obtain ⟨p5, f5, δ5, h5, hsub5, hperm5, hf5, hlen5⟩ :=
            tier5Block_sound strategy locMap ⟨lang3, scr3, none, []⟩ p4
              ((((sup ++ δ1) ++ δ2) ++ δ3) ++ δ4) hmap4
          have hmap5 : ∀ k ∈ p5, (List.lookup k locMap).isSome = true :=
            fun k hk => hmap4 k (hsub5.subset hk)
          simp only [h5]
          by_cases hx5 : f5 = true ∧ strategy ≠ NegotiationStrategy.Filtering
          · obtain ⟨hf5t, hnF⟩ := hx5
            subst hf5t
            obtain ⟨hf1f, hδ1e⟩ := hq1 hnF
            obtain ⟨hf2f, hδ2e⟩ := hq2 hnF
            obtain ⟨hf3f, hδ3e⟩ := hq3 hnF
            obtain ⟨hf4f, hδ4e⟩ := hq4 hnF
            have hδ5 : δ5.length ≤ 1 := hlen5 hnF
            cases strategy with
            | Filtering => exact absurd rfl hnF
            | Matching =>
              exact ⟨p5, δ1 ++ (δ2 ++ (δ3 ++ (δ4 ++ δ5))), false, by simp [gateThen],
                hsub5.trans (hsub4.trans (hsub3.trans (hsub2.trans hsub1))),
                perm_step hperm1 (perm_step hperm2 (perm_step hperm3 (perm_step hperm4 hperm5))),
                fun h => absurd h (by decide),
                fun _ => ⟨rfl, by simp [hδ1e, hδ2e, hδ3e, hδ4e, hδ5]⟩,
                fun h => absurd h (by decide)⟩
            | Lookup =>
              exact ⟨p5, δ1 ++ (δ2 ++ (δ3 ++ (δ4 ++ δ5))), true, by simp [gateThen],
                hsub5.trans (hsub4.trans (hsub3.trans (hsub2.trans hsub1))),
                perm_step hperm1 (perm_step hperm2 (perm_step hperm3 (perm_step hperm4 hperm5))),
                fun h => absurd h (by decide), fun h => absurd h (by decide),
                fun _ => ⟨by simp [hδ1e, hδ2e, hδ3e, hδ4e, hδ5], fun hst => by simp at hst⟩⟩
          · simp only [gateThen_continue hx5]
            have hq5 : strategy ≠ NegotiationStrategy.Filtering → f5 = false ∧ δ5 = [] :=
              continue_clear hx5 hf5
            obtain ⟨p6, f6, δ6, h6, hsub6, hperm6, hf6, _, hlen6⟩ :=
              scanTier_sound strategy locMap ⟨lang3, scr3, none, []⟩ true true p5 false
                (((((sup ++ δ1) ++ δ2) ++ δ3) ++ δ4) ++ δ5) hmap5
            simp only [h6]
            by_cases hx6 : f6 = true ∧ strategy ≠ NegotiationStrategy.Filtering
            · obtain ⟨hf6t, hnF⟩ := hx6
              subst hf6t
              obtain ⟨hf1f, hδ1e⟩ := hq1 hnF
              obtain ⟨hf2f, hδ2e⟩ := hq2 hnF
              obtain ⟨hf3f, hδ3e⟩ := hq3 hnF
              obtain ⟨hf4f, hδ4e⟩ := hq4 hnF
              obtain ⟨hf5f, hδ5e⟩ := hq5 hnF
              have hδ6 : δ6.length ≤ 1 := hlen6 hnF rfl
              cases strategy with
              | Filtering => exact absurd rfl hnF
              | Matching =>
                exact ⟨p6, δ1 ++ (δ2 ++ (δ3 ++ (δ4 ++ (δ5 ++ δ6)))), false, by simp [gateThen],
                  hsub6.trans (hsub5.trans (hsub4.trans (hsub3.trans (hsub2.trans hsub1)))),
                  perm_step hperm1 (perm_step hperm2 (perm_step hperm3
                    (perm_step hperm4 (perm_step hperm5 hperm6)))),
                  fun h => absurd h (by decide),
                  fun _ => ⟨rfl, by simp [hδ1e, hδ2e, hδ3e, hδ4e, hδ5e, hδ6]⟩,
                  fun h => absurd h (by decide)⟩
              | Lookup =>
                exact ⟨p6, δ1 ++ (δ2 ++ (δ3 ++ (δ4 ++ (δ5 ++ δ6)))), true, by simp [gateThen],
                  hsub6.trans (hsub5.trans (hsub4.trans (hsub3.trans (hsub2.trans hsub1)))),
                  perm_step hperm1 (perm_step hperm2 (perm_step hperm3
                    (perm_step hperm4 (perm_step hperm5 hperm6)))),
                  fun h => absurd h (by decide), fun h => absurd h (by decide),
                  fun _ => ⟨by simp [hδ1e, hδ2e, hδ3e, hδ4e, hδ5e, hδ6],
                    fun hst => by simp at hst⟩⟩
            · simp only [gateThen_continue hx6]
              have hq6 : strategy ≠ NegotiationStrategy.Filtering → f6 = false ∧ δ6 = [] :=
                continue_clear hx6 (fun h => (hf6 h).1)
              refine ⟨p6, δ1 ++ (δ2 ++ (δ3 ++ (δ4 ++ (δ5 ++ δ6)))), false,
                by simp [List.append_assoc],
                hsub6.trans (hsub5.trans (hsub4.trans (hsub3.trans (hsub2.trans hsub1)))),
                perm_step hperm1 (perm_step hperm2 (perm_step hperm3
                  (perm_step hperm4 (perm_step hperm5 hperm6)))),
                fun _ => rfl, ?_, ?_⟩
              · intro hM
                have hnF : strategy ≠ NegotiationStrategy.Filtering := by
                  rw [hM]; decide
                refine ⟨rfl, ?_⟩
                simp [(hq1 hnF).2, (hq2 hnF).2, (hq3 hnF).2, (hq4 hnF).2,
                  (hq5 hnF).2, (hq6 hnF).2]
              · intro hL
                have hnF : strategy ≠ NegotiationStrategy.Filtering := by
                  rw [hL]; decide
                refine ⟨?_, fun _ => ?_⟩ <;>
                  simp [(hq1 hnF).2, (hq2 hnF).2, (hq3 hnF).2, (hq4 hnF).2,
                    (hq5 hnF).2, (hq6 hnF).2]

/-- Master specification of the request loop: it succeeds whenever every pool
entry is in the map; every string occurs in the result at most as often as in
the supported-so-far list and pool combined; a `Lookup` run from an empty
supported list returns at most one tag; a `Matching` run adds at most one tag
per requested entry. -/
theorem filterLoop_sound (strategy : NegotiationStrategy)
    (locMap : List (String × Locale)) :
    ∀ (reqs pool sup : List String),
    (∀ k ∈ pool, (List.lookup k locMap).isSome = true) →
    ∃ out, filterLoop strategy locMap reqs pool sup = some out ∧
      (∀ s, out.count s ≤ sup.count s + pool.count s) ∧
      (strategy = NegotiationStrategy.Lookup → sup = [] → out.length ≤ 1) ∧
      (strategy = NegotiationStrategy.Matching →
        out.length ≤ sup.length + reqs.length) := by
  intro reqs
  induction reqs with
  | nil =>
    intro pool sup _
    exact ⟨sup, rfl, fun s => Nat.le_add_right _ _, fun _ hsup => by simp [hsup],
      fun _ => by simp⟩
  | cons r rest ih =>
    intro pool sup hmap
    by_cases hr : r.data.isEmpty = true
    · obtain ⟨out, hout, hcnt, hlk, hmt⟩ := ih pool sup hmap
      refine ⟨out, ?_, hcnt, hlk, fun hM => ?_⟩
      · simp only [filterLoop, if_pos hr]
        exact hout
      · have := hmt hM
        simp only [List.length_cons]
        omega
    · obtain ⟨p', δ, stop, hpr, hsub, hperm, cF, cM, cL⟩ :=
        processRequest_sound strategy locMap r pool sup hmap
      have hmap' : ∀ k ∈ p', (List.lookup k locMap).isSome = true :=
        fun k hk => hmap k (hsub.subset hk)
      have hcount : ∀ s, pool.count s = p'.count s + δ.count s := by
        intro s
        rw [hperm.count_eq]
        simp [List.count_append]
      cases stop with
      | true =>
        refine ⟨sup ++ δ, ?_, ?_, ?_, ?_⟩
        · simp only [filterLoop, if_neg hr, hpr]
          simp
        · intro s
          have := hcount s
          simp only [List.count_append]
          omega
        · intro hL hsup
          have := (cL hL).1
          simp [hsup]
          omega
        · intro hM
          have h0 := (cM hM).1
          simp at h0
      | false =>
        obtain ⟨out, hout, hcnt, hlk, hmt⟩ := ih p' (sup ++ δ) hmap'
        refine ⟨out, ?_, ?_, ?_, ?_⟩
        · simp only [filterLoop, if_neg hr, hpr]
          simpa using hout
        · intro s
          have h1 := hcnt s
          have h2 := hcount s
          simp only [List.count_append] at h1
          omega
        · intro hL hsup
          have hδ : δ = [] := (cL hL).2 rfl
          exact hlk hL (by simp [hsup, hδ])
        · intro hM
          have h1 := hmt hM
          have hδ : δ.length ≤ 1 := (cM hM).2
          simp only [List.length_append, List.length_cons] at h1 ⊢
          omega

/-- The preprocessing keeps at most as many copies of a tag as the caller
supplied. -/
theorem parseAvailable_count (available : List String) (s : String) :
    ((parseAvailable available).map Prod.fst).count s ≤ available.count s := by
  induction available with
  | nil => simp [parseAvailable]
  | cons tag rest ih =>
    cases h : Locale.new tag with
    | some loc =>
      simp only [parseAvailable, h, List.map_cons, List.count_cons]
      split <;> omega
    | none =>
      simp only [parseAvailable, h, List.count_cons]
      omega

/-- `filter_matches` always succeeds; every string occurs in its result at
most as often as in the available list; `Lookup` returns at most one tag;
`Matching` returns at most one tag per requested entry. -/
theorem filter_matches_sound (requested available : List String)
    (strategy : NegotiationStrategy) :
    ∃ out, filter_matches requested available strategy = some out ∧
      (∀ s, out.count s ≤ available.count s) ∧
      (strategy = NegotiationStrategy.Lookup → out.length ≤ 1) ∧
      (strategy = NegotiationStrategy.Matching → out.length ≤ requested.length) := by
  obtain ⟨out, hout, hcnt, hlk, hmt⟩ :=
    filterLoop_sound strategy (parseAvailable available) requested
      ((parseAvailable available).map Prod.fst) []
      (lookup_isSome_of_mem (parseAvailable available))
  refine ⟨out, hout, fun s => ?_, fun hL => hlk hL rfl, fun hM => by simpa using hmt hM⟩
  have h1 := hcnt s
  have h2 := parseAvailable_count available s
  simp only [List.count_nil] at h1
  omega

/-- For the non-`Filtering` strategies, a tier scan entered with the found
flag already set leaves the pool, the flag and the supported list unchanged. -/
theorem scanTier_found_noop (strategy : NegotiationStrategy)
    (locMap : List (String × Locale)) (reference : Locale) (a b : Bool)
    (hnF : strategy ≠ NegotiationStrategy.Filtering) :
    ∀ (pool supported : List String),
    scanTier strategy locMap reference a b pool true supported
      = some (pool, true, supported) := by
  intro pool
  induction pool with
  | nil => intro supported; rfl
  | cons key rest ih =>
    intro supported
    simp only [scanTier, ih]
    rw [if_pos (And.intro hnF trivial)]

/-- Under `Filtering`, the incoming found flag has no effect on a tier's
scan: the surviving pool and the supported list are those of a scan started
with a clear flag, and the outgoing flag is the disjunction. -/
theorem scanTier_filtering_flag (locMap : List (String × Locale))
    (reference : Locale) (a b : Bool) :
    ∀ (pool : List String) (found : Bool) (supported : List String),
    scanTier NegotiationStrategy.Filtering locMap reference a b pool found supported
      = (scanTier NegotiationStrategy.Filtering locMap reference a b pool false
          supported).map (fun x => (x.1, found || x.2.1, x.2.2)) := by
  intro pool
  induction pool with
  | nil => intro found supported; simp [scanTier]
  | cons key rest ih =>
    intro found supported
    simp only [scanTier]
    rw [if_neg (by simp : ¬(NegotiationStrategy.Filtering ≠ NegotiationStrategy.Filtering
        ∧ found = true)),
      if_neg (by simp : ¬(NegotiationStrategy.Filtering ≠ NegotiationStrategy.Filtering
        ∧ false = true))]
    cases hloc : List.lookup key locMap with
    | none => simp
    | some loc =>
      by_cases hm : loc.matches reference a b = true
      · simp only [hm, if_pos]
        rw [ih true (supported ++ [key])]
        rcases hz : scanTier NegotiationStrategy.Filtering locMap reference a b rest false
            (supported ++ [key]) with _ | ⟨p, f, s⟩ <;> simp [hz]
      · simp only [hm]
        rw [ih found supported, ih false supported]
        rcases hz : scanTier NegotiationStrategy.Filtering locMap reference a b rest false
            supported with _ | ⟨p, f, s⟩ <;> simp [hz]

/-- Exact self-match of the tag matcher. -/
theorem matches_self (l : Locale) : l.matches l false false = true := by
  simp [Locale.matches, optSubtagMatches]

/-- A successfully parsed tag converts infallibly to its parsed form. -/
theorem fromString_of_new {t : String} {l : Locale} (h : Locale.new t = some l) :
    Locale.fromString t = l := by
  simp [Locale.fromString, h]

/-- A successfully parsed tag is not the empty string. -/
theorem new_data_ne_empty {t : String} {l : Locale} (h : Locale.new t = some l) :
    t.data.isEmpty = false := by
  cases he : t.data.isEmpty
  · rfl
  · simp [Locale.new, he] at h

/-- The tier-3 block is inert on an empty pool. -/
theorem tier3Block_nil (strategy : NegotiationStrategy) (locMap : List (String × Locale))
    (r0 : Locale) (sup : List String) :
    ∃ r3, tier3Block strategy locMap r0 [] sup = some (r3, [], false, sup) := by
  rcases h3 : likely_subtags.add r0.to_string with _ | e
  · exact ⟨r0, by simp [tier3Block, h3]⟩
  · exact ⟨Locale.fromString e, by simp [tier3Block, h3, scanTier_nil]⟩

/-- The tier-5 block is inert on an empty pool. -/
theorem tier5Block_nil (strategy : NegotiationStrategy) (locMap : List (String × Locale))
    (r5 : Locale) (sup : List String) :
    tier5Block strategy locMap r5 [] sup = some ([], false, sup) := by
  rcases h5 : likely_subtags.add r5.to_string with _ | e <;>
    simp [tier5Block, h5, scanTier_nil]

/-- Skipping an empty requested entry anywhere in the loop is a no-op. -/
theorem filterLoop_skip_empty (strategy : NegotiationStrategy)
    (locMap : List (String × Locale)) :
    ∀ (pre post pool sup : List String),
    filterLoop strategy locMap (pre ++ "" :: post) pool sup
      = filterLoop strategy locMap (pre ++ post) pool sup := by
  intro pre
  induction pre with
  | nil =>
    intro post pool sup
    simp only [List.nil_append, filterLoop]
    rw [if_pos (show ("" : String).data.isEmpty = true from rfl)]
  | cons r rest ih =>
    intro post pool sup
    simp only [List.cons_append, List.append_eq, filterLoop, ih]

/-! ## Refinement lemmas -/

/-- The inline gate blocks of the source implement the spec's uniform
gating rule. -/
theorem specGateThen_eq (strategy : NegotiationStrategy) (found : Bool)
    (p s : List String) (k : Unit → Option (List String × List String × Bool)) :
    specGateThen strategy found p s k = gateThen strategy found p s k := by
  cases strategy <;> cases found <;> rfl

/-- The spec-gated per-request pass agrees with the source's. -/
theorem processRequestSpec_eq (strategy : NegotiationStrategy)
    (locMap : List (String × Locale)) (reqStr : String) (pool sup : List String) :
    processRequestSpec strategy locMap reqStr pool sup
      = processRequest strategy locMap reqStr pool sup := by
  simp only [processRequestSpec, processRequest, specGateThen_eq]

/-- The spec-gated loop agrees with the source's. -/
theorem filterLoopSpec_eq (strategy : NegotiationStrategy)
    (locMap : List (String × Locale)) :
    ∀ (reqs pool sup : List String),
    filterLoopSpec strategy locMap reqs pool sup
      = filterLoop strategy locMap reqs pool sup := by
  intro reqs
  induction reqs with
  | nil => intro pool sup; rfl
  | cons r rest ih =>
    intro pool sup
    simp only [filterLoopSpec, filterLoop, processRequestSpec_eq, ih]

/-- `gateThen` only ever applies its continuation to `()`. -/
theorem gateThen_congr {strategy : NegotiationStrategy} {found : Bool}
    {p s : List String} {k₁ k₂ : Unit → Option (List String × List String × Bool)}
    (h : k₁ () = k₂ ()) :
    gateThen strategy found p s k₁ = gateThen strategy found p s k₂ := by
  cases found
  · exact h
  · cases strategy
    · exact h
    · rfl
    · rfl

/-- The per-request pass with precomputed references agrees with the
source's reference threading. -/
theorem processRequestRefs_eq (strategy : NegotiationStrategy)
    (locMap : List (String × Locale)) (reqStr : String) (pool sup : List String) :
    processRequestRefs strategy locMap reqStr pool sup
      = processRequest strategy locMap reqStr pool sup := by
  simp only [processRequestRefs, processRequest, tierRefs, tier3Block, tier5Block,
    set_region_empty]
  rcases h3 : likely_subtags.add (Locale.to_string (Locale.fromString reqStr)) with _ | e3
  · simp only [h3, Option.map_none', Option.getD_none]
    rcases h5 : likely_subtags.add
        (Locale.to_string { Locale.clear_variants (Locale.fromString reqStr) with
          region := none }) with _ | e5
    · simp only [h5, Option.map_none']
    · simp only [h5, Option.map_some']
  · simp only [h3, Option.map_some', Option.getD_some]
    rcases h5 : likely_subtags.add
        (Locale.to_string { Locale.clear_variants (Locale.fromString e3) with
          region := none }) with _ | e5 <;>
      simp only [h5, Option.map_none', Option.map_some'] <;>
      · cases scanTier strategy locMap (Locale.fromString reqStr) false false pool false sup with
        | none => rfl
        | some x =>
          rcases x with ⟨p1, f1, s1⟩
          refine gateThen_congr ?_
          cases scanTier strategy locMap (Locale.fromString reqStr) true false p1 f1 s1 with
          | none => rfl
          | some y =>
            rcases y with ⟨p2, f2, s2⟩
            refine gateThen_congr ?_
            cases scanTier strategy locMap (Locale.fromString e3) true false p2 false s2 with
            | none => rfl
            | some z =>
              rcases z with ⟨p3, f3, s3⟩
              simp only [h5]

/-! ## Claim theorems -/

/-- C1: Strategy gating is evaluated after each tier's scan — under
`Filtering` no tier is ever skipped by the gate; under `Matching`, as soon as
a tier produces at least one match the remaining tiers for that requested tag
are abandoned and processing advances to the next requested tag; under
`Lookup`, as soon as a tier produces at least one match the whole negotiation
stops and the supported list accumulated so far is returned.  Formalised as:
the source's inline gate blocks refine the spec's uniform gating rule
(`specGate`), together with witnessing runs of the three strategies. -/
theorem c1_strategy_gating :
    (∀ (requested available : List String) (strategy : NegotiationStrategy),
      filter_matches_spec requested available strategy
        = filter_matches requested available strategy) ∧
    negotiate_languages ["en-US", "fr"] ["en-US", "fr"] none
      NegotiationStrategy.Lookup = some ["en-US"] ∧
    negotiate_languages ["en-US"] ["en-US", "en"] none
      NegotiationStrategy.Matching = some ["en-US"] ∧
    negotiate_languages ["en-US"] ["en-US", "en"] none
      NegotiationStrategy.Filtering = some ["en-US", "en"] := by
  refine ⟨fun requested available strategy => ?_, by decide, by decide, by decide⟩
  simp only [filter_matches_spec, filter_matches, filterLoopSpec_eq]

/-- C2: The reference tag is threaded through the six tiers rather than
recomputed: the per-request pass equals the pass driven by the references
precomputed by `tierRefs` — tier 3's maximized tag (when the lookup succeeds)
becomes the reference for all subsequent tiers, tier 4 clears the variants of
that carried reference, tier 5 matches against the maximized form of the
region-stripped reference (skipped when maximization fails), and tier 6
matches against the region-stripped, non-maximized reference.  With
witnessing runs for the tier-4, tier-5 and tier-6 references. -/
theorem c2_reference_threading :
    (∀ (strategy : NegotiationStrategy) (locMap : List (String × Locale))
      (reqStr : String) (pool sup : List String),
      processRequestRefs strategy locMap reqStr pool sup
        = processRequest strategy locMap reqStr pool sup) ∧
    negotiate_languages ["ja-JP-win"] ["ja-JP-mac"] none
      NegotiationStrategy.Filtering = some ["ja-JP-mac"] ∧
    negotiate_languages ["en-CA"] ["en-ZA", "en-US"] none
      NegotiationStrategy.Filtering = some ["en-US", "en-ZA"] ∧
    negotiate_languages ["en-US"] ["en-GB"] none
      NegotiationStrategy.Filtering = some ["en-GB"] :=
  ⟨processRequestRefs_eq, by decide, by decide, by decide⟩

/-- C3: The found flag is not reset between tiers 1 and 2 but each later
tier is judged independently: for `Matching`/`Lookup` a tier entered with the
flag already set contributes nothing (so a tier-1 match prevents tier 2 from
contributing), while under `Filtering` the flag does not influence which
entries a scan consumes (tier 2 always executes fully and may add further
matches after a tier-1 match), as the witnessing runs show. -/
theorem c3_flag_reset_asymmetry :
    (∀ (strategy : NegotiationStrategy) (locMap : List (String × Locale))
      (reference : Locale) (a b : Bool) (pool supported : List String),
      strategy ≠ NegotiationStrategy.Filtering →
      scanTier strategy locMap reference a b pool true supported
        = some (pool, true, supported)) ∧
    (∀ (locMap : List (String × Locale)) (reference : Locale) (a b : Bool)
      (pool : List String) (found : Bool) (supported : List String),
      scanTier NegotiationStrategy.Filtering locMap reference a b pool found supported
        = (scanTier NegotiationStrategy.Filtering locMap reference a b pool false
            supported).map (fun x => (x.1, found || x.2.1, x.2.2))) ∧
    negotiate_languages ["en-US"] ["en-US", "en"] none
      NegotiationStrategy.Filtering = some ["en-US", "en"] ∧
    negotiate_languages ["en-US"] ["en-US", "en"] none
      NegotiationStrategy.Matching = some ["en-US"] ∧
    negotiate_languages ["en-US"] ["en-US", "en"] none
      NegotiationStrategy.Lookup = some ["en-US"] :=
  ⟨fun strategy locMap reference a b pool supported h =>
      scanTier_found_noop strategy locMap reference a b h pool supported,
    fun locMap reference a b pool found supported =>
      scanTier_filtering_flag locMap reference a b pool found supported,
    by decide, by decide, by decide⟩

/-- C3 witness: a `Matching` tier scan entered with the flag set is a no-op
on a concrete nonempty pool. -/
theorem c3_flag_reset_asymmetry_witness :
    scanTier NegotiationStrategy.Matching [] ⟨none, none, none, []⟩ false false
      ["x"] true [] = some (["x"], true, []) :=
  c3_flag_reset_asymmetry.1 NegotiationStrategy.Matching [] ⟨none, none, none, []⟩
    false false ["x"] [] (by decide)

/-- C4 counterexample: with an available list that contains the same tag
twice, the same string appears twice in the returned list, contradicting the
claim's unconditional no-duplication statement. -/
theorem c4_counterexample :
    negotiate_languages ["fr"] ["fr", "fr"] none NegotiationStrategy.Filtering
      = some ["fr", "fr"] ∧
    (["fr", "fr"] : List String).count "fr" = 2 := by
  constructor
  · decide
  · decide

/-- C4 amended: every tag of the result is drawn verbatim from the available
list or is the literal default; every string other than the default occurs at
most as often as in the available list; and when the available list is
duplicate-free the result is duplicate-free (in particular the default never
introduces a duplicate, under any strategy). -/
theorem c4_amended_no_duplication :
    ∀ (requested available : List String) (d : Option String)
      (strategy : NegotiationStrategy) (out : List String),
    negotiate_languages requested available d strategy = some out →
    (∀ s ∈ out, s ∈ available ∨ d = some s) ∧
    (∀ s, d ≠ some s → out.count s ≤ available.count s) ∧
    (available.Nodup → out.Nodup) := by
  intro requested available d strategy out h
  obtain ⟨sup, hsup, hcnt, _, _⟩ := filter_matches_sound requested available strategy
  have hmem : ∀ s ∈ sup, s ∈ available := fun s hs =>
    List.count_pos_iff.mp (lt_of_lt_of_le (List.count_pos_iff.mpr hs) (hcnt s))
  have hnd : available.Nodup → sup.Nodup := fun hav =>
    List.nodup_iff_count_le_one.mpr fun a =>
      le_trans (hcnt a) (List.nodup_iff_count_le_one.mp hav a)
  cases d with
  | none =>
    simp only [negotiate_languages, hsup, Option.some_inj] at h
    subst h
    exact ⟨fun s hs => Or.inl (hmem s hs), fun s _ => hcnt s, hnd⟩
  | some x =>
    simp only [negotiate_languages, hsup] at h
    by_cases hL : strategy = NegotiationStrategy.Lookup
    · rw [if_pos hL] at h
      by_cases he : sup.isEmpty = true
      · rw [if_pos he] at h
        simp only [Option.some_inj] at h
        subst h
        have hsupnil : sup = [] := by simpa using he
        subst hsupnil
        refine ⟨fun s hs => Or.inr ?_, fun s hd => ?_, fun _ => by simp⟩
        · simp at hs
          rw [hs]
        · have hx : s ≠ x := fun hsx => hd (by rw [hsx])
          simp [List.count_cons, hx]
      · rw [if_neg he] at h
        simp only [Option.some_inj] at h
        subst h
        exact ⟨fun s hs => Or.inl (hmem s hs), fun s _ => hcnt s, hnd⟩
    · rw [if_neg hL] at h
      by_cases hc : sup.contains x = true
      · rw [if_pos hc] at h
        simp only [Option.some_inj] at h
        subst h
        exact ⟨fun s hs => Or.inl (hmem s hs), fun s _ => hcnt s, hnd⟩
      · rw [if_neg hc] at h
        simp only [Option.some_inj] at h
        subst h
        have hx : x ∉ sup := by simpa using hc
        refine ⟨fun s hs => ?_, fun s hd => ?_, fun hav => ?_⟩
        · rcases List.mem_append.mp hs with hs | hs
          · exact Or.inl (hmem s hs)
          · simp at hs
            exact Or.inr (by rw [hs])
        · have hxs : x ≠ s := fun hsx => hd (by rw [hsx])
          rw [List.count_append]
          have : List.count s [x] = 0 := by simp [List.count_cons, hxs]
          rw [this]
          simpa using hcnt s
        · simp [List.nodup_append, hnd hav, hx]

/-- C4 amended witness: the amended statement at a concrete run. -/
theorem c4_amended_no_duplication_witness :
    (∀ s ∈ (["fr"] : List String), s ∈ (["fr"] : List String)
        ∨ (none : Option String) = some s) ∧
    (∀ s, (none : Option String) ≠ some s →
      (["fr"] : List String).count s ≤ (["fr"] : List String).count s) ∧
    ((["fr"] : List String).Nodup → (["fr"] : List String).Nodup) :=
  c4_amended_no_duplication ["fr"] ["fr"] none NegotiationStrategy.Filtering ["fr"]
    (by decide)

/-- C5: default insertion after the main loop — under `Lookup` the default is
appended exactly when the supported list is empty; under the other strategies
it is appended exactly when not already present; with no default the list is
returned unchanged. -/
theorem c5_default_insertion :
    ∀ (requested available : List String) (d : String)
      (strategy : NegotiationStrategy) (sup : List String),
    filter_matches requested available strategy = some sup →
    negotiate_languages requested available none strategy = some sup ∧
    (strategy = NegotiationStrategy.Lookup →
      negotiate_languages requested available (some d) strategy
        = some (if sup.isEmpty then sup ++ [d] else sup)) ∧
    (strategy ≠ NegotiationStrategy.Lookup →
      negotiate_languages requested available (some d) strategy
        = some (if d ∈ sup then sup else sup ++ [d])) := by
  intro requested available d strategy sup h
  refine ⟨by simp [negotiate_languages, h], fun hL => ?_, fun hnL => ?_⟩
  · simp only [negotiate_languages, h, if_pos hL]
    by_cases he : sup.isEmpty = true
    · rw [if_pos he, if_pos he]
    · rw [if_neg he, if_neg he]
  · simp only [negotiate_languages, h, if_neg hnL]
    by_cases hc : d ∈ sup
    · have hcb : sup.contains d = true := by simpa using hc
      rw [if_pos hcb, if_pos hc]
    · have hcb : ¬sup.contains d = true := by simpa using hc
      rw [if_neg hcb, if_neg hc]

/-- C5 witness: the three default-insertion behaviours at a concrete run. -/
theorem c5_default_insertion_witness :
    negotiate_languages ["fr"] ["fr"] none NegotiationStrategy.Filtering
      = some ["fr"] ∧
    (NegotiationStrategy.Filtering = NegotiationStrategy.Lookup →
      negotiate_languages ["fr"] ["fr"] (some "en") NegotiationStrategy.Filtering
        = some (if (["fr"] : List String).isEmpty then ["fr"] ++ ["en"] else ["fr"])) ∧
    (NegotiationStrategy.Filtering ≠ NegotiationStrategy.Lookup →
      negotiate_languages ["fr"] ["fr"] (some "en") NegotiationStrategy.Filtering
        = some (if "en" ∈ (["fr"] : List String) then ["fr"] else ["fr"] ++ ["en"])) :=
  c5_default_insertion ["fr"] ["fr"] "en" NegotiationStrategy.Filtering ["fr"]
    (by decide)

/-- C6: the negotiation never fails — unparsable available tags are dropped,
unparsable requested tags degrade to a catch-all reference, every key kept in
the pool is found in the parsed-available map, and `set_region` with the
empty string always succeeds, so a (possibly empty) list is always
returned. -/
theorem c6_never_fails :
    ∀ (requested available : List String) (d : Option String)
      (strategy : NegotiationStrategy),
    (negotiate_languages requested available d strategy).isSome = true := by
  intro requested available d strategy
  obtain ⟨out, hout, _, _, _⟩ := filter_matches_sound requested available strategy
  cases d with
  | none => simp [negotiate_languages, hout]
  | some x =>
    simp only [negotiate_languages, hout]
    split <;> split <;> rfl

/-- C7 counterexample: the spec's exact-match identity quantified over all
tag strings fails at the empty string, which the engine skips as a requested
entry, returning the empty list. -/
theorem c7_counterexample :
    negotiate_languages [""] [""] none NegotiationStrategy.Filtering = some []
      ∧ (some ([] : List String) ≠ some [""]) := by
  constructor
  · decide
  · decide

/-- C7 amended: exact-match identity holds for every tag the tag matcher
parses successfully: `negotiate([t], [t], None, Filtering) = [t]`. -/
theorem c7_exact_match_parsed :
    ∀ (t : String) (l : Locale), Locale.new t = some l →
    negotiate_languages [t] [t] none NegotiationStrategy.Filtering = some [t] := by
  intro t l h
  have hfrom : Locale.fromString t = l := fromString_of_new h
  have hne : t.data.isEmpty = false := new_data_ne_empty h
  have hparse : parseAvailable [t] = [(t, l)] := by simp [parseAvailable, h]
  have hscan1 : scanTier NegotiationStrategy.Filtering [(t, l)] l false false
      [t] false [] = some ([], true, [t]) := by
    simp [scanTier, List.lookup, matches_self l]
  have hpr : processRequest NegotiationStrategy.Filtering [(t, l)] t [t] []
      = some ([], [t], false) := by
    simp only [processRequest, hfrom, hscan1]
    rw [gateThen_continue (by simp)]
    simp only [scanTier_nil]
    rw [gateThen_continue (by simp)]
    obtain ⟨r3, h3⟩ := tier3Block_nil NegotiationStrategy.Filtering [(t, l)] l [t]
    simp only [h3]
    rw [gateThen_continue (by simp)]
    simp only [scanTier_nil]
    rw [gateThen_continue (by simp)]
    simp only [set_region_empty, tier5Block_nil]
    rw [gateThen_continue (by simp)]
    simp only [scanTier_nil]
    rw [gateThen_continue (by simp)]
  have hfm : filter_matches [t] [t] NegotiationStrategy.Filtering = some [t] := by
    have hpool : (parseAvailable [t]).map Prod.fst = [t] := by rw [hparse]; rfl
    simp only [filter_matches]
    rw [hpool, hparse]
    simp only [filterLoop]
    rw [if_neg (by simp [hne]), hpr]
    simp [filterLoop]
  simp [negotiate_languages, hfm]

/-- C7 witness: the amended exact-match identity at the concrete parsed tag
`"fr"`. -/
theorem c7_exact_match_parsed_witness :
    negotiate_languages ["fr"] ["fr"] none NegotiationStrategy.Filtering
      = some ["fr"] :=
  c7_exact_match_parsed "fr" ⟨some "fr", none, none, []⟩ (by decide)

/-- C8: every empty-string entry in the requested list is a no-op — removing
it anywhere from the requested list leaves the result unchanged; in
particular `negotiate(["", "fr"], ["fr"], None, Filtering) = ["fr"]`. -/
theorem c8_empty_requested_noop :
    (∀ (pre post available : List String) (d : Option String)
      (strategy : NegotiationStrategy),
      negotiate_languages (pre ++ "" :: post) available d strategy
        = negotiate_languages (pre ++ post) available d strategy) ∧
    negotiate_languages ["", "fr"] ["fr"] none NegotiationStrategy.Filtering
      = some ["fr"] := by
  refine ⟨fun pre post available d strategy => ?_, by decide⟩
  simp only [negotiate_languages, filter_matches, filterLoop_skip_empty]

/-- C9: under the `Lookup` strategy the returned list always has at most one
element, for every input. -/
theorem c9_lookup_at_most_one :
    ∀ (requested available : List String) (d : Option String) (out : List String),
    negotiate_languages requested available d NegotiationStrategy.Lookup = some out →
    out.length ≤ 1 := by
  intro requested available d out h
  obtain ⟨sup, hsup, _, hlk, _⟩ :=
    filter_matches_sound requested available NegotiationStrategy.Lookup
  have hlen : sup.length ≤ 1 := hlk rfl
  cases d with
  | none =>
    simp only [negotiate_languages, hsup, Option.some_inj] at h
    subst h
    exact hlen
  | some x =>
    simp only [negotiate_languages, hsup, if_true] at h
    by_cases he : sup.isEmpty = true
    · rw [if_pos he] at h
      simp only [Option.some_inj] at h
      subst h
      have : sup = [] := by simpa using he
      simp [this]
    · rw [if_neg he] at h
      simp only [Option.some_inj] at h
      subst h
      exact hlen

/-- C9 witness: a concrete `Lookup` run. -/
theorem c9_lookup_at_most_one_witness : (["fr"] : List String).length ≤ 1 :=
  c9_lookup_at_most_one ["fr"] ["fr"] none ["fr"] (by decide)

/-- C10: under the `Matching` strategy each requested tag contributes at most
one tag to the output — the per-request pass never stops the negotiation and
appends at most one entry, and consequently the whole result is no longer
than the requested list. -/
theorem c10_matching_per_request :
    (∀ (locMap : List (String × Locale)) (reqStr : String) (pool sup : List String),
      (∀ k ∈ pool, (List.lookup k locMap).isSome = true) →
      ∃ p' δ, processRequest NegotiationStrategy.Matching locMap reqStr pool sup
          = some (p', sup ++ δ, false) ∧ δ.length ≤ 1) ∧
    (∀ (requested available : List String) (out : List String),
      filter_matches requested available NegotiationStrategy.Matching = some out →
      out.length ≤ requested.length) := by
  constructor
  · intro locMap reqStr pool sup hmap
    obtain ⟨p', δ, stop, heq, _, _, _, cM, _⟩ :=
      processRequest_sound NegotiationStrategy.Matching locMap reqStr pool sup hmap
    obtain ⟨hstop, hlen⟩ := cM rfl
    subst hstop
    exact ⟨p', δ, heq, hlen⟩
  · intro requested available out h
    obtain ⟨out', hout', _, _, hmt⟩ :=
      filter_matches_sound requested available NegotiationStrategy.Matching
    rw [hout'] at h
    simp only [Option.some_inj] at h
    subst h
    exact hmt rfl

/-- C10 witness: the per-request bound at a concrete input. -/
theorem c10_matching_per_request_witness :
    ∃ p' δ, processRequest NegotiationStrategy.Matching
        [("fr", ⟨some "fr", none, none, []⟩)] "fr" ["fr"] []
        = some (p', [] ++ δ, false) ∧ δ.length ≤ 1 :=
  c10_matching_per_request.1 [("fr", ⟨some "fr", none, none, []⟩)] "fr" ["fr"] []
    (by decide)

end FluentLocale
